import Mathlib

/-!
# Notes application (`src/app/page.js`): state model and derived views

A shallow embedding of the `NotesApp` component's state (`useState` cells) and of its
event handlers `saveNote`, `deleteNote`, `editNote`, `addTag`, `removeTag` together with
the derived values `allTags` and `filteredNotes`.

JavaScript strings are modelled as lists of code points (`List Char`), which is exact
for well-formed strings: trimming, splitting on `,`, joining and substring search give
the same answers on code points as on UTF-16 code units.
-/

namespace NotesApp

/-- A JavaScript string, as the list of its code points. -/
abbrev Str := List Char

/-! ## Built-in string and array operations used by the component -/

/-- Code points removed by `String.prototype.trim`: ECMAScript `WhiteSpace`
(TAB, VT, FF, ZWNBSP and the Unicode category Zs) and `LineTerminator`
(LF, CR, LS, PS). -/
def isWhiteSpace (c : Char) : Bool :=
  let n := c.toNat
  n == 0x09 || n == 0x0A || n == 0x0B || n == 0x0C || n == 0x0D || n == 0x20 ||
  n == 0xA0 || n == 0x1680 || (0x2000 ≤ n && n ≤ 0x200A) || n == 0x2028 ||
  n == 0x2029 || n == 0x202F || n == 0x205F || n == 0x3000 || n == 0xFEFF

/-- JavaScript `String.prototype.trim`: strip white space from both ends. -/
def trim (s : Str) : Str :=
  ((s.dropWhile isWhiteSpace).reverse.dropWhile isWhiteSpace).reverse

/-- JavaScript `s.split(',')`: the segments between commas; the empty string gives one empty
segment. -/
def splitComma : Str → List Str
  | [] => [[]]
  | c :: cs =>
    if c = ',' then [] :: splitComma cs
    else
      match splitComma cs with
      | [] => [[c]]
      | seg :: segs => (c :: seg) :: segs

/-- JavaScript `arr.join(sep)` for an array of strings. -/
def join (sep : Str) : List Str → Str
  | [] => []
  | [x] => x
  | x :: y :: rest => x ++ sep ++ join sep (y :: rest)

/-- JavaScript `Set.prototype.add` on the insertion-ordered contents of a `Set`. -/
def setAdd {α : Type} [DecidableEq α] (acc : List α) (x : α) : List α :=
  if x ∈ acc then acc else acc ++ [x]

/-- JavaScript `[...new Set(xs)]`: insert the elements one by one, then list the set in
insertion order. -/
def newSet {α : Type} [DecidableEq α] (xs : List α) : List α :=
  xs.foldl setAdd []

/-- JavaScript `s.startsWith(q)`, the test `includes` makes at each position. -/
def startsWith : Str → Str → Bool
  | _, [] => true
  | [], _ :: _ => false
  | c :: s, d :: q => c == d && startsWith s q

/-- JavaScript `s.includes(q)`: `q` occurs in `s` at some position. -/
def includes : Str → Str → Bool
  | [], q => q.isEmpty
  | c :: s, q => startsWith (c :: s) q || includes s q

/-- The specification's deduplication: keep only the first occurrence of each value,
in order. -/
def firstOccurrences {α : Type} [DecidableEq α] : List α → List α
  | [] => []
  | x :: xs => x :: (firstOccurrences xs).filter (fun y => decide (y ≠ x))

/-! ## Data model -/

/-- A note object. The draft `currentNote` is the same kind of object: its `id` is
`null` (`none`) for a new note, and the literal `{ id: null, title: '', content: '',
tags: [] }` has no `createdAt` (`none`). -/
structure Note where
  id : Option Int
  title : Str
  content : Str
  tags : List Str
  createdAt : Option Str
deriving DecidableEq

/-- The six `useState` cells of the component. -/
structure State where
  notes : List Note
  currentNote : Note
  searchQuery : Str
  tagInput : Str
  isEditing : Bool
  filterTag : Str
deriving DecidableEq

/-- The object literal `{ id: null, title: '', content: '', tags: [] }`. -/
def emptyNote : Note :=
  { id := none, title := [], content := [], tags := [], createdAt := none }

/-- JavaScript truthiness of an id: `null` and `0` are falsy. -/
def truthy : Option Int → Bool
  | none => false
  | some n => n != 0

/-! ## Event handlers -/

/-- The handler `saveNote`. `now` is the value of `Date.now()` and `iso` the value of
`new Date().toISOString()` read when a new note is appended. -/
def saveNote (s : State) (now : Int) (iso : Str) : State :=
  if (trim s.currentNote.title).isEmpty && (trim s.currentNote.content).isEmpty then s
  else
    { s with
      notes :=
        if truthy s.currentNote.id then
          s.notes.map (fun n => if n.id = s.currentNote.id then s.currentNote else n)
        else
          s.notes ++ [{ s.currentNote with id := some now, createdAt := some iso }]
      currentNote := emptyNote
      tagInput := []
      isEditing := false }

/-- The handler `deleteNote`. -/
def deleteNote (s : State) (id : Option Int) : State :=
  { s with notes := s.notes.filter (fun n => n.id != id) }

/-- The handler `editNote`. -/
def editNote (s : State) (note : Note) : State :=
  { s with
    currentNote := note
    tagInput := join ", ".toList note.tags
    isEditing := true }

/-- The handler `addTag`. -/
def addTag (s : State) : State :=
  if (trim s.tagInput).isEmpty then s
  else
    { s with
      currentNote :=
        { s.currentNote with
          tags := newSet (((splitComma s.tagInput).map trim).filter (fun t => !t.isEmpty)) } }

/-- The handler `removeTag`. -/
def removeTag (s : State) (tag : Str) : State :=
  { s with
    currentNote := { s.currentNote with tags := s.currentNote.tags.filter (fun t => t != tag) }
    tagInput := join ", ".toList (s.currentNote.tags.filter (fun t => t != tag)) }

/-! ## Derived values -/

/-- The derived value `allTags`. -/
def allTags (s : State) : List Str :=
  newSet (s.notes.flatMap (fun n => n.tags))

/-- The derived value `filteredNotes`. `toLowerCase` is the built-in
`String.prototype.toLowerCase`, taken as a parameter. -/
def filteredNotes (toLowerCase : Str → Str) (s : State) : List Note :=
  s.notes.filter (fun note =>
    let matchesSearch :=
      s.searchQuery.isEmpty ||
      includes (toLowerCase note.title) (toLowerCase s.searchQuery) ||
      includes (toLowerCase note.content) (toLowerCase s.searchQuery) ||
      note.tags.any (fun tag => includes (toLowerCase tag) (toLowerCase s.searchQuery))
    let matchesTag := s.filterTag.isEmpty || note.tags.contains s.filterTag
    matchesSearch && matchesTag)

/-! ## The editor's inline handlers and runs of user events -/

/-- The initial values of the six `useState` cells. -/
def initialState : State :=
  { notes := [], currentNote := emptyNote, searchQuery := [], tagInput := [],
    isEditing := false, filterTag := [] }

/-- The `+ New Note` button: `setIsEditing(true)`. -/
def openEditor (s : State) : State :=
  { s with isEditing := true }

/-- The title input's `onChange`: `setCurrentNote({ ...currentNote, title: v })`. -/
def changeTitle (s : State) (v : Str) : State :=
  { s with currentNote := { s.currentNote with title := v } }

/-- The content area's `onChange`: `setCurrentNote({ ...currentNote, content: v })`. -/
def changeContent (s : State) (v : Str) : State :=
  { s with currentNote := { s.currentNote with content := v } }

/-- The tag input's `onChange`: `setTagInput(v)`. -/
def setTagInput (s : State) (v : Str) : State :=
  { s with tagInput := v }

/-- The search input's `onChange`: `setSearchQuery(v)`. -/
def setSearchQuery (s : State) (v : Str) : State :=
  { s with searchQuery := v }

/-- The tag select's `onChange`: `setFilterTag(v)`. -/
def setFilterTag (s : State) (v : Str) : State :=
  { s with filterTag := v }

/-- What the user can do while a draft is open, short of Save, Cancel and loading
another note: type in the title, the content, the tag input or the search box, leave
the tag input (`onBlur={addTag}`), remove a tag, choose a filter tag, delete a note. -/
inductive EditorEvent where
  | titleChanged (v : Str)
  | contentChanged (v : Str)
  | tagInputChanged (v : Str)
  | tagInputBlurred
  | tagRemoved (tag : Str)
  | searchChanged (v : Str)
  | filterTagChanged (v : Str)
  | noteDeleted (id : Option Int)

/-- The handler the component runs for an editor event. -/
def handle (s : State) : EditorEvent → State
  | EditorEvent.titleChanged v => changeTitle s v
  | EditorEvent.contentChanged v => changeContent s v
  | EditorEvent.tagInputChanged v => setTagInput s v
  | EditorEvent.tagInputBlurred => addTag s
  | EditorEvent.tagRemoved tag => removeTag s tag
  | EditorEvent.searchChanged v => setSearchQuery s v
  | EditorEvent.filterTagChanged v => setFilterTag s v
  | EditorEvent.noteDeleted id => deleteNote s id

/-- The state after a sequence of editor events, handled one after the other. -/
def runEvents (s : State) (es : List EditorEvent) : State :=
  es.foldl handle s

/-! ## Specification-level definitions and example states -/

/-- The note saved from a new draft titled `old` while `Date.now()` is 0. -/
def zeroIdNote : Note :=
  { id := some 0, title := "old".toList, content := [], tags := [],
    createdAt := some "t0".toList }

/-- A run from the initial state: a note titled `old` is saved while `Date.now()` is 0,
then loaded with `editNote` and its title changed to `new`. -/
def zeroIdRun : State :=
  runEvents
    (editNote (saveNote (changeTitle (openEditor initialState) "old".toList) 0 "t0".toList)
      zeroIdNote)
    [EditorEvent.titleChanged "new".toList]

/-- The first of two notes saved while `Date.now()` is 5. -/
def twinFirstNote : Note :=
  { id := some 5, title := "A".toList, content := [], tags := [],
    createdAt := some "t0".toList }

/-- The second of two notes saved while `Date.now()` is 5. -/
def twinSecondNote : Note :=
  { id := some 5, title := "B".toList, content := [], tags := [],
    createdAt := some "t1".toList }

/-- A run from the initial state: two notes titled `A` and `B` are saved while
`Date.now()` is 5 both times, then the first is loaded with `editNote` and its title
changed to `new`. -/
def twinIdRun : State :=
  runEvents
    (editNote
      (saveNote
        (changeTitle
          (openEditor
            (saveNote (changeTitle (openEditor initialState) "A".toList) 5 "t0".toList))
          "B".toList)
        5 "t1".toList)
      twinFirstNote)
    [EditorEvent.titleChanged "new".toList]

/-- The editor events of the example edit: new title, new content, tags typed and
committed. -/
def exampleEdits : List EditorEvent :=
  [EditorEvent.titleChanged "new".toList, EditorEvent.contentChanged "c".toList,
   EditorEvent.tagInputChanged "a, b, a".toList, EditorEvent.tagInputBlurred]

/-- A state whose draft has a blank title and blank content but an id and tags. -/
def blankDraftState : State :=
  { notes := [{ id := some 3, title := "n".toList, content := [], tags := [],
                createdAt := some "t0".toList }]
    currentNote := { id := some 3, title := " \t".toList, content := "\n ".toList,
                     tags := ["x".toList], createdAt := none }
    searchQuery := []
    tagInput := "x".toList
    isEditing := true
    filterTag := [] }

/-- A state with no notes and the draft `{id: null, title: "T", content: "C", tags: []}`. -/
def firstDraftState : State :=
  { notes := []
    currentNote := { id := none, title := "T".toList, content := "C".toList, tags := [],
                     createdAt := none }
    searchQuery := []
    tagInput := []
    isEditing := true
    filterTag := [] }

/-- A one-note collection, with the draft `{id: 1, title: "new", content: "c", tags: []}`
of the specification's example: the draft has the note's id and no `createdAt`. -/
def editDraftState : State :=
  { notes := [{ id := some 1, title := "old".toList, content := [], tags := ["x".toList],
                createdAt := some "t0".toList }]
    currentNote := { id := some 1, title := "new".toList, content := "c".toList, tags := [],
                     createdAt := none }
    searchQuery := []
    tagInput := []
    isEditing := true
    filterTag := [] }

/-- A draft loaded from the first of two notes, with a new title and new tags. -/
def editLoadedState : State :=
  { notes := [{ id := some 1, title := "old".toList, content := [], tags := ["x".toList],
                createdAt := some "t0".toList },
              { id := some 2, title := "other".toList, content := [], tags := [],
                createdAt := some "t1".toList }]
    currentNote := { id := some 1, title := "new".toList, content := "c".toList, tags := [],
                     createdAt := some "t0".toList }
    searchQuery := []
    tagInput := []
    isEditing := true
    filterTag := [] }

/-- A one-note collection with a non-blank draft whose id 2 is the id of no note. -/
def orphanDraftState : State :=
  { notes := [{ id := some 1, title := "old".toList, content := [], tags := [],
                createdAt := some "t0".toList }]
    currentNote := { id := some 2, title := "T".toList, content := "C".toList,
                     tags := ["x".toList], createdAt := some "t1".toList }
    searchQuery := []
    tagInput := "x".toList
    isEditing := true
    filterTag := [] }

/-- A one-note collection whose note has id 5, with a new non-blank draft. -/
def clockClashState : State :=
  { notes := [{ id := some 5, title := "old".toList, content := [], tags := [],
                createdAt := some "t0".toList }]
    currentNote := { id := none, title := "T".toList, content := [], tags := [],
                     createdAt := none }
    searchQuery := []
    tagInput := []
    isEditing := true
    filterTag := [] }

/-- The inclusion rule of the specification: the search query is empty or its lower
case form occurs in the lower case title, content or some tag, and the filter tag is
empty or is one of the note's tags. -/
def IncludedBySpec (toLowerCase : Str → Str) (searchQuery filterTag : Str) (n : Note) :
    Prop :=
  (searchQuery = [] ∨
    toLowerCase searchQuery <:+: toLowerCase n.title ∨
    toLowerCase searchQuery <:+: toLowerCase n.content ∨
    ∃ t ∈ n.tags, toLowerCase searchQuery <:+: toLowerCase t) ∧
  (filterTag = [] ∨ filterTag ∈ n.tags)

instance instDecidableIncludedBySpec (toLowerCase : Str → Str) (searchQuery filterTag : Str)
    (n : Note) : Decidable (IncludedBySpec toLowerCase searchQuery filterTag n) := by
  unfold IncludedBySpec
  infer_instance

/-- Lower-casing of the letters A to Z only; it agrees with `toLowerCase` on ASCII
strings. -/
def asciiLower (x : Str) : Str := x.map Char.toLower

/-- Two notes, the first titled `Hello World`, searched for `hello`. -/
def searchState : State :=
  { notes := [{ id := some 1, title := "Hello World".toList, content := [],
                tags := ["work".toList], createdAt := some "t0".toList },
              { id := some 2, title := "Shopping".toList, content := "milk".toList,
                tags := [], createdAt := some "t1".toList }]
    currentNote := emptyNote
    searchQuery := "hello".toList
    tagInput := []
    isEditing := false
    filterTag := [] }

/-- The two notes of `searchState`, with no search query and the filter tag `work`. -/
def workFilterState : State :=
  { searchState with searchQuery := [], filterTag := "work".toList }

/-- A tag as `addTag` commits it: non-empty, without a comma, and equal to its own
trim. -/
def CleanTag (t : Str) : Prop := t ≠ [] ∧ ',' ∉ t ∧ trim t = t

/-- A draft with a previous tag, and the raw tag text `a, b, a, c`. -/
def tagInputState : State :=
  { notes := []
    currentNote := { id := none, title := "T".toList, content := [],
                     tags := ["z".toList], createdAt := none }
    searchQuery := []
    tagInput := "a, b, a, c".toList
    isEditing := true
    filterTag := [] }

/-! ## Saving and deleting -/

theorem saveNote_of_blank (s : State) (now : Int) (iso : Str)
    (ht : trim s.currentNote.title = []) (hc : trim s.currentNote.content = []) :
    saveNote s now iso = s := by
  simp [saveNote, ht, hc]

theorem saveNote_of_nonblank (s : State) (now : Int) (iso : Str)
    (hnb : trim s.currentNote.title ≠ [] ∨ trim s.currentNote.content ≠ []) :
    saveNote s now iso =
      { s with
        notes :=
          if truthy s.currentNote.id then
            s.notes.map (fun n => if n.id = s.currentNote.id then s.currentNote else n)
          else
            s.notes ++ [{ s.currentNote with id := some now, createdAt := some iso }]
        currentNote := emptyNote
        tagInput := []
        isEditing := false } := by
  have hb : ((trim s.currentNote.title).isEmpty && (trim s.currentNote.content).isEmpty)
      = false := by
    rcases hnb with h | h
    · have : (trim s.currentNote.title).isEmpty = false := by
        simpa [List.isEmpty_iff] using h
      simp [this]
    · have : (trim s.currentNote.content).isEmpty = false := by
        simpa [List.isEmpty_iff] using h
      simp [this]
  simp [saveNote, hb]

/-- C4: a draft whose title and content are both blank after trimming makes `saveNote`
return the state it was given, so the collection, the draft, the tag input buffer and
the editing flag (and the search query and filter tag) are all unchanged. -/
theorem saveNote_blank_noop (s : State) (now : Int) (iso : Str)
    (ht : trim s.currentNote.title = []) (hc : trim s.currentNote.content = []) :
    saveNote s now iso = s ∧
    (saveNote s now iso).notes = s.notes ∧
    (saveNote s now iso).currentNote = s.currentNote ∧
    (saveNote s now iso).tagInput = s.tagInput ∧
    (saveNote s now iso).isEditing = s.isEditing := by
  rw [saveNote_of_blank s now iso ht hc]
  exact ⟨rfl, rfl, rfl, rfl, rfl⟩

theorem saveNote_blank_noop_witness :
    trim blankDraftState.currentNote.title = [] ∧
    trim blankDraftState.currentNote.content = [] ∧
    saveNote blankDraftState 17 "t1".toList = blankDraftState :=
  ⟨by decide, by decide,
    (saveNote_blank_noop blankDraftState 17 "t1".toList (by decide) (by decide)).1⟩

/-- C5: a non-blank draft with id `null` is appended as one new note carrying the
draft's title, content and tags, with `id` the value of `Date.now()` and `createdAt`
the ISO time read at the save; the old notes are an unchanged prefix, the length grows
by one, the draft is reset to `{ id: null, title: '', content: '', tags: [] }`, and on
the empty collection the result has exactly one note. -/
theorem saveNote_new_appends (s : State) (now : Int) (iso : Str)
    (hid : s.currentNote.id = none)
    (hnb : trim s.currentNote.title ≠ [] ∨ trim s.currentNote.content ≠ []) :
    (saveNote s now iso).notes =
      s.notes ++ [{ id := some now, title := s.currentNote.title,
                    content := s.currentNote.content, tags := s.currentNote.tags,
                    createdAt := some iso }] ∧
    (saveNote s now iso).notes.length = s.notes.length + 1 ∧
    (saveNote s now iso).notes.take s.notes.length = s.notes ∧
    (saveNote s now iso).currentNote =
      { id := none, title := [], content := [], tags := [], createdAt := none } ∧
    (s.notes = [] → (saveNote s now iso).notes.length = 1) := by
  rw [saveNote_of_nonblank s now iso hnb]
  simp [hid, truthy, emptyNote]

theorem saveNote_new_appends_witness :
    firstDraftState.currentNote.id = none ∧
    trim firstDraftState.currentNote.title ≠ [] ∧
    (saveNote firstDraftState 1700000000000 "2023-11-14T22:13:20.000Z".toList).notes.length
      = 1 :=
  ⟨rfl, by decide,
    (saveNote_new_appends firstDraftState 1700000000000 "2023-11-14T22:13:20.000Z".toList
      rfl (Or.inl (by decide))).2.2.2.2 rfl⟩

theorem saveNote_update_notes (s : State) (X : Int) (now : Int) (iso : Str)
    (hX : X ≠ 0) (hid : s.currentNote.id = some X)
    (hnb : trim s.currentNote.title ≠ [] ∨ trim s.currentNote.content ≠ []) :
    (saveNote s now iso).notes =
      s.notes.map (fun n => if n.id = some X then s.currentNote else n) := by
  rw [saveNote_of_nonblank s now iso hnb]
  simp [hid, truthy, hX]

theorem handle_keeps_draft_origin (s : State) (e : EditorEvent) :
    (handle s e).currentNote.id = s.currentNote.id ∧
    (handle s e).currentNote.createdAt = s.currentNote.createdAt ∧
    (handle s e).notes.Sublist s.notes := by
  cases e with
  | titleChanged v => exact ⟨rfl, rfl, List.Sublist.refl _⟩
  | contentChanged v => exact ⟨rfl, rfl, List.Sublist.refl _⟩
  | tagInputChanged v => exact ⟨rfl, rfl, List.Sublist.refl _⟩
  | tagInputBlurred =>
    simp only [handle, addTag]
    split
    · exact ⟨rfl, rfl, List.Sublist.refl _⟩
    · exact ⟨rfl, rfl, List.Sublist.refl _⟩
  | tagRemoved tag => exact ⟨rfl, rfl, List.Sublist.refl _⟩
  | searchChanged v => exact ⟨rfl, rfl, List.Sublist.refl _⟩
  | filterTagChanged v => exact ⟨rfl, rfl, List.Sublist.refl _⟩
  | noteDeleted id => exact ⟨rfl, rfl, List.filter_sublist _⟩

theorem runEvents_keeps_draft_origin (s : State) (es : List EditorEvent) :
    (runEvents s es).currentNote.id = s.currentNote.id ∧
    (runEvents s es).currentNote.createdAt = s.currentNote.createdAt ∧
    (runEvents s es).notes.Sublist s.notes := by
  induction es generalizing s with
  | nil => exact ⟨rfl, rfl, List.Sublist.refl _⟩
  | cons e es ih =>
    obtain ⟨h1, h2, h3⟩ := ih (handle s e)
    obtain ⟨k1, k2, k3⟩ := handle_keeps_draft_origin s e
    exact ⟨h1.trans k1, h2.trans k2, h3.trans k3⟩

/-- C1 as stated fails on two runs of the component from its initial state. In the
first, the note being edited has id 0 (it was saved while `Date.now()` was 0): the
draft has the id of a note of the collection and a non-blank title, yet `saveNote`
leaves that note as it was and appends the draft as a new note, so the length grows.
In the second, two notes share the id 5 (both saved while `Date.now()` was 5): saving
the draft loaded from the first also overwrites the second, whose title and `createdAt`
change to the first note's. -/
theorem saveNote_edit_counterexample :
    (zeroIdRun.notes = [zeroIdNote] ∧
      zeroIdRun.currentNote.id = zeroIdNote.id ∧
      zeroIdRun.currentNote.title = "new".toList ∧
      trim zeroIdRun.currentNote.title ≠ [] ∧
      (saveNote zeroIdRun 9 "t1".toList).notes =
        [zeroIdNote,
         { id := some 9, title := "new".toList, content := [], tags := [],
           createdAt := some "t1".toList }] ∧
      (saveNote zeroIdRun 9 "t1".toList).notes.length ≠ zeroIdRun.notes.length) ∧
    (twinIdRun.notes = [twinFirstNote, twinSecondNote] ∧
      twinIdRun.currentNote.id = some 5 ∧
      trim twinIdRun.currentNote.title ≠ [] ∧
      (saveNote twinIdRun 6 "t2".toList).notes =
        [{ id := some 5, title := "new".toList, content := [], tags := [],
           createdAt := some "t0".toList },
         { id := some 5, title := "new".toList, content := [], tags := [],
           createdAt := some "t0".toList }] ∧
      ((saveNote twinIdRun 6 "t2".toList).notes[1]?).map (fun n => n.createdAt) ≠
        (twinIdRun.notes[1]?).map (fun n => n.createdAt)) := by
  decide

/-- C1, amended: take a collection with pairwise distinct ids, a note `N` of it with a
non-zero id `X`, and the state `s` reached by `editNote(N)` followed by any editor
events (typing in the title, content, tag input or search box, committing or removing
tags, choosing a filter tag, deleting notes), with a non-blank title or content. Then
the draft still has id `X`, and `saveNote` yields a collection of the same length in
which the note at the position of the note with id `X` has the draft's title, content
and tags, the id `X` and the original `createdAt` of the note it replaced, while the
note at every other position is unchanged. -/
theorem saveNote_after_editNote (s0 s : State) (N : Note) (X : Int)
    (es : List EditorEvent) (now : Int) (iso : Str)
    (hN : N ∈ s0.notes) (hid : N.id = some X) (hX : X ≠ 0)
    (hnd : (s0.notes.map (fun n => n.id)).Nodup)
    (hs : s = runEvents (editNote s0 N) es)
    (hnb : trim s.currentNote.title ≠ [] ∨ trim s.currentNote.content ≠ []) :
    s.currentNote.id = some X ∧
    (saveNote s now iso).notes.length = s.notes.length ∧
    (∀ (i : Nat) (n : Note), s.notes[i]? = some n →
      (n.id = some X →
        (saveNote s now iso).notes[i]? =
          some { id := some X, title := s.currentNote.title,
                 content := s.currentNote.content, tags := s.currentNote.tags,
                 createdAt := n.createdAt }) ∧
      (n.id ≠ some X → (saveNote s now iso).notes[i]? = some n)) ∧
    (∀ (i j : Nat) (n m : Note), s.notes[i]? = some n → s.notes[j]? = some m →
      n.id = some X → j ≠ i → (saveNote s now iso).notes[j]? = some m) := by
  obtain ⟨h1, h2, h3⟩ := runEvents_keeps_draft_origin (editNote s0 N) es
  rw [← hs] at h1 h2 h3
  have hdid : s.currentNote.id = some X := by
    rw [h1]
    exact hid
  have hdc : s.currentNote.createdAt = N.createdAt := h2
  have hsub : s.notes.Sublist s0.notes := h3
  have hnotes := saveNote_update_notes s X now iso hX hdid hnb
  have hkey : ∀ n ∈ s.notes, n.id = some X → n = N := by
    intro n hn hnX
    exact List.inj_on_of_nodup_map hnd (hsub.subset hn) hN (hnX.trans hid.symm)
  have hsnd : s.notes.Nodup := (hnd.sublist (hsub.map _)).of_map _
  have hother : ∀ (i : Nat) (n : Note), s.notes[i]? = some n → n.id ≠ some X →
      (saveNote s now iso).notes[i]? = some n := by
    intro i n hn hne
    rw [hnotes]
    simp [List.getElem?_map, hn, hne]
  refine ⟨hdid, by simp [hnotes], ?_, ?_⟩
  · intro i n hn
    refine ⟨?_, hother i n hn⟩
    intro heq
    have hnN : n = N := hkey n (List.getElem?_mem hn) heq
    rw [hnotes]
    simp only [List.getElem?_map, hn, Option.map_some', heq, if_true, Option.some.injEq]
    rw [hnN, ← hdc, ← hdid]
  · intro i j n m hn hm heq hji
    apply hother j m hm
    intro hmX
    have hnN : n = N := hkey n (List.getElem?_mem hn) heq
    have hmN : m = N := hkey m (List.getElem?_mem hm) hmX
    have hj : j < s.notes.length := (List.getElem?_eq_some.mp hm).1
    have hij : j = i := List.getElem?_inj hj hsnd (by rw [hm, hn, hmN, hnN])
    exact hji hij

theorem saveNote_after_editNote_witness :
    ({ id := some 1, title := "Hello World".toList, content := [],
       tags := ["work".toList], createdAt := some "t0".toList } : Note) ∈ searchState.notes ∧
    (searchState.notes.map (fun n => n.id)).Nodup ∧
    trim (runEvents (editNote searchState
      { id := some 1, title := "Hello World".toList, content := [],
        tags := ["work".toList], createdAt := some "t0".toList }) exampleEdits).currentNote.title
      ≠ [] ∧
    (saveNote (runEvents (editNote searchState
      { id := some 1, title := "Hello World".toList, content := [],
        tags := ["work".toList], createdAt := some "t0".toList }) exampleEdits)
      8 "t2".toList).notes =
      [{ id := some 1, title := "new".toList, content := "c".toList,
         tags := ["a".toList, "b".toList], createdAt := some "t0".toList },
       { id := some 2, title := "Shopping".toList, content := "milk".toList,
         tags := [], createdAt := some "t1".toList }] ∧
    (saveNote (runEvents (editNote searchState
      { id := some 1, title := "Hello World".toList, content := [],
        tags := ["work".toList], createdAt := some "t0".toList }) exampleEdits)
      8 "t2".toList).notes[0]? =
      some { id := some 1, title := "new".toList, content := "c".toList,
             tags := ["a".toList, "b".toList], createdAt := some "t0".toList } :=
  ⟨by decide, by decide, by decide, by decide,
    ((saveNote_after_editNote searchState _
      { id := some 1, title := "Hello World".toList, content := [],
        tags := ["work".toList], createdAt := some "t0".toList } 1 exampleEdits
      8 "t2".toList (by decide) rfl (by decide) (by decide) rfl
      (Or.inl (by decide))).2.2.1 0 _ rfl).1 rfl⟩

/-- C2 as stated fails: the draft is non-blank and its id 2 is non-null and the id of
no note, yet `saveNote` appends nothing: the collection is returned as it was, with one
note and not two. -/
theorem saveNote_orphan_counterexample :
    orphanDraftState.currentNote.id = some 2 ∧
    trim orphanDraftState.currentNote.title ≠ [] ∧
    (∀ n ∈ orphanDraftState.notes, n.id ≠ some 2) ∧
    (saveNote orphanDraftState 9 "t2".toList).notes = orphanDraftState.notes ∧
    (saveNote orphanDraftState 9 "t2".toList).notes.length ≠
      orphanDraftState.notes.length + 1 := by
  decide

/-- C2, amended: for a non-blank draft whose id `X` is non-null and the id of no note,
`saveNote` leaves the collection as it was when `X` is non-zero (nothing is appended),
and appends exactly one note carrying the draft's title, content and tags when `X` is
zero; in both cases the draft is reset to the empty draft. -/
theorem saveNote_orphan_id (s : State) (X : Int) (now : Int) (iso : Str)
    (hid : s.currentNote.id = some X)
    (hnb : trim s.currentNote.title ≠ [] ∨ trim s.currentNote.content ≠ [])
    (hno : ∀ n ∈ s.notes, n.id ≠ some X) :
    (X ≠ 0 → (saveNote s now iso).notes = s.notes) ∧
    (X = 0 → (saveNote s now iso).notes =
      s.notes ++ [{ id := some now, title := s.currentNote.title,
                    content := s.currentNote.content, tags := s.currentNote.tags,
                    createdAt := some iso }] ∧
      (saveNote s now iso).notes.length = s.notes.length + 1) ∧
    (saveNote s now iso).currentNote =
      { id := none, title := [], content := [], tags := [], createdAt := none } := by
  rw [saveNote_of_nonblank s now iso hnb]
  refine ⟨?_, ?_, rfl⟩
  · intro hX
    simp only [hid, truthy, bne_iff_ne, ne_eq, hX, not_false_eq_true, if_true]
    conv_rhs => rw [← List.map_id s.notes]
    apply List.map_congr_left
    intro n hn
    simp [hno n hn]
  · intro hX
    simp [hid, truthy, hX]

theorem saveNote_orphan_id_witness :
    orphanDraftState.currentNote.id = some 2 ∧
    trim orphanDraftState.currentNote.title ≠ [] ∧
    (saveNote orphanDraftState 9 "t2".toList).notes = orphanDraftState.notes :=
  ⟨rfl, by decide,
    (saveNote_orphan_id orphanDraftState 2 9 "t2".toList rfl (Or.inl (by decide))
      (by decide)).1 (by decide)⟩

/-- C3 as stated fails: the ids of the collection are pairwise distinct, and saving a
new draft while `Date.now()` returns 5, the id of the existing note, gives a collection
with two notes of id 5. -/
theorem saveNote_ids_counterexample :
    (clockClashState.notes.map (fun n => n.id)).Nodup ∧
    (saveNote clockClashState 5 "t1".toList).notes.map (fun n => n.id) = [some 5, some 5] ∧
    ¬ ((saveNote clockClashState 5 "t1".toList).notes.map (fun n => n.id)).Nodup := by
  decide

/-- C3, amended: when the ids of the collection are pairwise distinct, they are again
pairwise distinct after `deleteNote` of any id, and after `saveNote` whenever the clock
value `now` is the id of no note of the collection, or the draft is blank, or the draft
has a non-null non-zero id (so that no note is appended). -/
theorem ids_nodup_preserved (s : State) (now : Int) (iso : Str) (id : Option Int)
    (h : (s.notes.map (fun n => n.id)).Nodup) :
    ((deleteNote s id).notes.map (fun n => n.id)).Nodup ∧
    ((some now ∉ s.notes.map (fun n => n.id) ∨
        (trim s.currentNote.title = [] ∧ trim s.currentNote.content = []) ∨
        truthy s.currentNote.id = true) →
      ((saveNote s now iso).notes.map (fun n => n.id)).Nodup) := by
  constructor
  · exact h.sublist (List.Sublist.map _ (List.filter_sublist _))
  · intro hcase
    by_cases hb : trim s.currentNote.title = [] ∧ trim s.currentNote.content = []
    · rw [saveNote_of_blank s now iso hb.1 hb.2]
      exact h
    · have hnb : trim s.currentNote.title ≠ [] ∨ trim s.currentNote.content ≠ [] := by
        by_contra hc
        push_neg at hc
        exact hb hc
      rw [saveNote_of_nonblank s now iso hnb]
      by_cases ht : truthy s.currentNote.id = true
      · simp only [ht, if_true, List.map_map]
        have : s.notes.map ((fun n => n.id) ∘
            (fun n => if n.id = s.currentNote.id then s.currentNote else n)) =
            s.notes.map (fun n => n.id) := by
          apply List.map_congr_left
          intro n _
          by_cases hn : n.id = s.currentNote.id <;> simp [hn]
        rw [this]
        exact h
      · rcases hcase with hnow | hblank | htr
        · simp only [ht, Bool.false_eq_true, if_false, List.map_append, List.map_cons,
            List.map_nil]
          rw [List.nodup_append]
          refine ⟨h, List.nodup_singleton _, ?_⟩
          intro a ha ha2
          simp at ha2
          subst ha2
          exact hnow ha
        · exact absurd hblank hb
        · exact absurd htr ht

theorem ids_nodup_preserved_witness :
    (clockClashState.notes.map (fun n => n.id)).Nodup ∧
    ((deleteNote clockClashState (some 5)).notes.map (fun n => n.id)).Nodup ∧
    ((saveNote clockClashState 6 "t1".toList).notes.map (fun n => n.id)).Nodup :=
  ⟨by decide,
    (ids_nodup_preserved clockClashState 6 "t1".toList (some 5) (by decide)).1,
    (ids_nodup_preserved clockClashState 6 "t1".toList (some 5) (by decide)).2
      (Or.inl (by decide))⟩

/-! ## The filtered view -/

theorem startsWith_iff (s q : Str) : startsWith s q = true ↔ q <+: s := by
  induction q generalizing s with
  | nil => simp [startsWith]
  | cons d q ih =>
    cases s with
    | nil => simp [startsWith]
    | cons c s =>
      simp only [startsWith, Bool.and_eq_true, beq_iff_eq, ih, List.cons_prefix_cons]
      constructor
      · rintro ⟨h1, h2⟩
        exact ⟨h1.symm, h2⟩
      · rintro ⟨h1, h2⟩
        exact ⟨h1.symm, h2⟩

theorem includes_iff (s q : Str) : includes s q = true ↔ q <:+: s := by
  induction s with
  | nil => simp [includes, List.isEmpty_iff]
  | cons c s ih =>
    simp only [includes, Bool.or_eq_true, startsWith_iff, ih, List.infix_cons_iff]

theorem filteredNotes_eq_filter_spec (toLowerCase : Str → Str) (s : State) :
    filteredNotes toLowerCase s =
      s.notes.filter
        (fun n => decide (IncludedBySpec toLowerCase s.searchQuery s.filterTag n)) := by
  have hc : ∀ (l : List Str) (x : Str), l.contains x = true ↔ x ∈ l := by
    intro l x
    simp
  unfold filteredNotes
  apply List.filter_congr
  intro n _
  rw [Bool.eq_iff_iff]
  simp only [Bool.and_eq_true, Bool.or_eq_true, List.isEmpty_iff, includes_iff,
    List.any_eq_true, hc, decide_eq_true_eq, IncludedBySpec]
  tauto

theorem filteredNotes_no_query_no_tag (toLowerCase : Str → Str) (s : State)
    (hq : s.searchQuery = []) (hf : s.filterTag = []) :
    filteredNotes toLowerCase s = s.notes := by
  rw [filteredNotes_eq_filter_spec, List.filter_eq_self]
  intro n _
  simp [IncludedBySpec, hq, hf]

/-- C6: `filteredNotes` is the collection filtered, in the collection's order, by the
specification's rule (empty query, or the lower case query occurs in the lower case
title, content or a tag; and empty filter tag, or the filter tag is one of the tags).
With an empty query and filter tag `work` it is exactly the notes whose tags contain
`work`; with query `hello` and no filter tag it contains every note of the collection
titled `Hello World`, `toLowerCase` being any function that maps `hello` to itself and
`Hello World` to `hello world`. -/
theorem filteredNotes_spec (toLowerCase : Str → Str) (s : State) :
    filteredNotes toLowerCase s =
      s.notes.filter
        (fun n => decide (IncludedBySpec toLowerCase s.searchQuery s.filterTag n)) ∧
    (filteredNotes toLowerCase s).Sublist s.notes ∧
    (s.searchQuery = [] → s.filterTag = "work".toList →
      filteredNotes toLowerCase s =
        s.notes.filter (fun n => decide ("work".toList ∈ n.tags))) ∧
    (toLowerCase "hello".toList = "hello".toList →
      toLowerCase "Hello World".toList = "hello world".toList →
      s.searchQuery = "hello".toList → s.filterTag = [] →
      ∀ n ∈ s.notes, n.title = "Hello World".toList → n ∈ filteredNotes toLowerCase s) := by
  refine ⟨filteredNotes_eq_filter_spec toLowerCase s, ?_, ?_, ?_⟩
  · rw [filteredNotes_eq_filter_spec]
    exact List.filter_sublist _
  · intro hq hf
    rw [filteredNotes_eq_filter_spec]
    apply List.filter_congr
    intro n _
    simp [IncludedBySpec, hq, hf]
  · intro h1 h2 hq hf n hn ht
    rw [filteredNotes_eq_filter_spec, List.mem_filter]
    refine ⟨hn, ?_⟩
    rw [decide_eq_true_eq]
    refine ⟨Or.inr (Or.inl ?_), Or.inl hf⟩
    rw [hq, ht, h1, h2]
    exact ⟨"".toList, " world".toList, by decide⟩

theorem filteredNotes_spec_witness :
    asciiLower "hello".toList = "hello".toList ∧
    asciiLower "Hello World".toList = "hello world".toList ∧
    filteredNotes asciiLower searchState =
      [{ id := some 1, title := "Hello World".toList, content := [],
         tags := ["work".toList], createdAt := some "t0".toList }] ∧
    ({ id := some 1, title := "Hello World".toList, content := [],
       tags := ["work".toList], createdAt := some "t0".toList } : Note) ∈
      filteredNotes asciiLower searchState ∧
    filteredNotes asciiLower workFilterState =
      workFilterState.notes.filter (fun n => decide ("work".toList ∈ n.tags)) :=
  ⟨by decide, by decide, by decide,
    (filteredNotes_spec asciiLower searchState).2.2.2 (by decide) (by decide) rfl rfl
      _ (by decide) rfl,
    (filteredNotes_spec asciiLower workFilterState).2.2.1 rfl rfl⟩

/-- C8: with empty search query and empty filter tag, the filtered view after
`deleteNote(N.id)` for a note `N` of the collection is the collection without the notes
of id `N.id`, in the original order: it contains neither `N` nor any note with that
id, and every note with another id is kept. In any state, for an id that no note has,
`deleteNote` returns the state unchanged. -/
theorem deleteNote_then_filteredNotes (toLowerCase : Str → Str) (s : State) :
    (s.searchQuery = [] → s.filterTag = [] → ∀ N ∈ s.notes,
      filteredNotes toLowerCase (deleteNote s N.id) =
        s.notes.filter (fun m => decide (m.id ≠ N.id)) ∧
      N ∉ filteredNotes toLowerCase (deleteNote s N.id) ∧
      (∀ m ∈ filteredNotes toLowerCase (deleteNote s N.id), m.id ≠ N.id) ∧
      (∀ m ∈ s.notes, m.id ≠ N.id → m ∈ filteredNotes toLowerCase (deleteNote s N.id))) ∧
    (∀ id : Option Int, (∀ n ∈ s.notes, n.id ≠ id) →
      deleteNote s id = s ∧ (deleteNote s id).notes = s.notes) := by
  constructor
  · intro hq hf N _
    have hv : filteredNotes toLowerCase (deleteNote s N.id) =
        s.notes.filter (fun m => decide (m.id ≠ N.id)) := by
      rw [filteredNotes_no_query_no_tag toLowerCase (deleteNote s N.id) hq hf]
      simp only [deleteNote]
      apply List.filter_congr
      intro m _
      by_cases h : m.id = N.id <;> simp [h]
    rw [hv]
    refine ⟨rfl, ?_, ?_, ?_⟩
    · simp [List.mem_filter]
    · intro m hm
      simpa using (List.mem_filter.mp hm).2
    · intro m hm hne
      exact List.mem_filter.mpr ⟨hm, by simpa using hne⟩
  · intro id hno
    have : s.notes.filter (fun n => n.id != id) = s.notes := by
      rw [List.filter_eq_self]
      intro n hn
      simpa using hno n hn
    simp [deleteNote, this]

theorem deleteNote_then_filteredNotes_witness :
    editLoadedState.searchQuery = [] ∧ editLoadedState.filterTag = [] ∧
    filteredNotes asciiLower (deleteNote editLoadedState (some 1)) =
      [{ id := some 2, title := "other".toList, content := [], tags := [],
         createdAt := some "t1".toList }] ∧
    searchState.searchQuery ≠ [] ∧
    (∀ n ∈ searchState.notes, n.id ≠ some 7) ∧
    deleteNote searchState (some 7) = searchState :=
  ⟨rfl, rfl,
    ((deleteNote_then_filteredNotes asciiLower editLoadedState).1 rfl rfl
      { id := some 1, title := "old".toList, content := [], tags := ["x".toList],
        createdAt := some "t0".toList } (by decide)).1.trans (by decide),
    by decide, by decide,
    ((deleteNote_then_filteredNotes asciiLower searchState).2 (some 7) (by decide)).1⟩

/-! ## `[...new Set(xs)]` keeps first occurrences -/

theorem indexOf_cons_of_eq {α : Type} [BEq α] [LawfulBEq α] {a y : α} (l : List α)
    (h : y = a) : List.indexOf a (y :: l) = 0 := by
  simp [List.indexOf_cons, h]

theorem indexOf_cons_of_ne {α : Type} [BEq α] [LawfulBEq α] {a y : α} (l : List α)
    (h : y ≠ a) : List.indexOf a (y :: l) = List.indexOf a l + 1 := by
  have hf : (y == a) = false := beq_eq_false_iff_ne.mpr h
  simp [List.indexOf_cons, hf]

section NewSet

variable {α : Type} [DecidableEq α]

theorem foldl_setAdd (xs acc : List α) :
    xs.foldl setAdd acc =
      acc ++ (firstOccurrences xs).filter (fun y => decide (y ∉ acc)) := by
  induction xs generalizing acc with
  | nil => simp [firstOccurrences]
  | cons x xs ih =>
    rw [List.foldl_cons, ih]
    by_cases hx : x ∈ acc
    · simp only [setAdd, hx, if_true, firstOccurrences, List.filter_cons, not_true_eq_false,
        decide_False, Bool.false_eq_true, if_false, List.filter_filter]
      congr 1
      apply List.filter_congr
      intro y _
      by_cases hy : y ∈ acc
      · simp [hy]
      · have : y ≠ x := fun h => hy (h ▸ hx)
        simp [hy, this]
    · simp only [setAdd, hx, if_false, firstOccurrences, List.filter_cons, not_false_eq_true,
        decide_True, if_true, List.filter_filter, List.append_assoc, List.singleton_append]
      congr 2
      apply List.filter_congr
      intro y _
      by_cases hy : y ∈ acc <;> by_cases hyx : y = x <;> simp [hy, hyx]

theorem newSet_eq_firstOccurrences (xs : List α) : newSet xs = firstOccurrences xs := by
  simp [newSet, foldl_setAdd]

theorem mem_firstOccurrences (xs : List α) (y : α) : y ∈ firstOccurrences xs ↔ y ∈ xs := by
  induction xs with
  | nil => simp [firstOccurrences]
  | cons x xs ih =>
    simp only [firstOccurrences, List.mem_cons, List.mem_filter, ih, decide_eq_true_eq]
    by_cases h : y = x <;> simp [h]

theorem nodup_firstOccurrences (xs : List α) : (firstOccurrences xs).Nodup := by
  induction xs with
  | nil => simp [firstOccurrences]
  | cons x xs ih =>
    simp only [firstOccurrences, List.nodup_cons, List.mem_filter, decide_eq_true_eq]
    exact ⟨fun h => h.2 rfl, ih.filter _⟩

theorem indexOf_filter_lt [BEq α] [LawfulBEq α] (p : α → Bool) (a b : α)
    (ha : p a = true) (hb : p b = true) (m : List α) :
    List.indexOf a (m.filter p) < List.indexOf b (m.filter p) ↔
      List.indexOf a m < List.indexOf b m := by
  induction m with
  | nil => simp
  | cons y m ih =>
    by_cases hy : p y = true
    · rw [List.filter_cons_of_pos hy]
      by_cases hya : y = a <;> by_cases hyb : y = b
      · simp [indexOf_cons_of_eq _ hya, indexOf_cons_of_eq _ hyb]
      · simp [indexOf_cons_of_eq _ hya, indexOf_cons_of_ne _ hyb]
      · simp [indexOf_cons_of_ne _ hya, indexOf_cons_of_eq _ hyb]
      · simp [indexOf_cons_of_ne _ hya, indexOf_cons_of_ne _ hyb, ih]
    · rw [List.filter_cons_of_neg hy]
      have hya : y ≠ a := fun h => hy (h ▸ ha)
      have hyb : y ≠ b := fun h => hy (h ▸ hb)
      simp [indexOf_cons_of_ne _ hya, indexOf_cons_of_ne _ hyb, ih]

theorem indexOf_firstOccurrences_lt [BEq α] [LawfulBEq α] (a b : α) (l : List α) :
    List.indexOf a (firstOccurrences l) < List.indexOf b (firstOccurrences l) ↔
      List.indexOf a l < List.indexOf b l := by
  induction l with
  | nil => simp [firstOccurrences]
  | cons x xs ih =>
    simp only [firstOccurrences]
    by_cases hxa : x = a <;> by_cases hxb : x = b
    · simp [indexOf_cons_of_eq _ hxa, indexOf_cons_of_eq _ hxb]
    · simp [indexOf_cons_of_eq _ hxa, indexOf_cons_of_ne _ hxb]
    · simp [indexOf_cons_of_ne _ hxa, indexOf_cons_of_eq _ hxb]
    · have ha : (fun y => decide (y ≠ x)) a = true := by
        simpa using fun h => hxa h.symm
      have hb : (fun y => decide (y ≠ x)) b = true := by
        simpa using fun h => hxb h.symm
      simp only [indexOf_cons_of_ne _ hxa, indexOf_cons_of_ne _ hxb,
        Nat.add_lt_add_iff_right]
      rw [indexOf_filter_lt _ a b ha hb, ih]

end NewSet

/-! ## The tag universe -/

/-- C9: `allTags` has no duplicate entries, a text is in it exactly when it is a tag of
some note of the collection, and its entries are in the order of their first
appearance in the notes' tag lists read in collection order (one entry comes before
another exactly when its first position in that reading is smaller). On the empty
collection it is empty, in particular after deleting the only note. -/
theorem allTags_spec (s : State) :
    (allTags s).Nodup ∧
    (∀ t : Str, t ∈ allTags s ↔ ∃ n ∈ s.notes, t ∈ n.tags) ∧
    (∀ a b : Str,
      List.indexOf a (allTags s) < List.indexOf b (allTags s) ↔
        List.indexOf a (s.notes.flatMap (fun n => n.tags)) <
          List.indexOf b (s.notes.flatMap (fun n => n.tags))) ∧
    allTags s = firstOccurrences (s.notes.flatMap (fun n => n.tags)) ∧
    (s.notes = [] → allTags s = []) ∧
    (∀ N : Note, s.notes = [N] → allTags (deleteNote s N.id) = []) := by
  have h : allTags s = firstOccurrences (s.notes.flatMap (fun n => n.tags)) :=
    newSet_eq_firstOccurrences _
  refine ⟨?_, ?_, ?_, h, ?_, ?_⟩
  · rw [h]
    exact nodup_firstOccurrences _
  · intro t
    rw [h, mem_firstOccurrences]
    simp [List.mem_flatMap]
  · intro a b
    rw [h]
    exact indexOf_firstOccurrences_lt a b _
  · intro hs
    simp [allTags, hs, newSet]
  · intro N hs
    simp [allTags, deleteNote, hs, newSet]

theorem allTags_spec_witness :
    editDraftState.notes =
      [{ id := some 1, title := "old".toList, content := [], tags := ["x".toList],
         createdAt := some "t0".toList }] ∧
    allTags editDraftState = ["x".toList] ∧
    allTags (deleteNote editDraftState (some 1)) = [] :=
  ⟨rfl, by decide,
    (allTags_spec editDraftState).2.2.2.2.2
      { id := some 1, title := "old".toList, content := [], tags := ["x".toList],
        createdAt := some "t0".toList } rfl⟩

/-! ## Trimming, splitting and joining -/

theorem trim_eq_rdropWhile (x : Str) :
    trim x = List.rdropWhile isWhiteSpace (x.dropWhile isWhiteSpace) := rfl

theorem trim_sublist (x : Str) : (trim x).Sublist x := by
  rw [trim_eq_rdropWhile]
  have h1 := List.rdropWhile_prefix isWhiteSpace (x.dropWhile isWhiteSpace)
  exact h1.sublist.trans (List.dropWhile_sublist _)

theorem trim_head_not_whiteSpace (x : Str) (c : Char) (h : (trim x).head? = some c) :
    isWhiteSpace c = false := by
  have h1 := List.rdropWhile_prefix isWhiteSpace (x.dropWhile isWhiteSpace)
  rw [← trim_eq_rdropWhile] at h1
  obtain ⟨r, hr⟩ := h1
  cases hz : trim x with
  | nil => simp [hz] at h
  | cons d z =>
    rw [hz] at h hr
    simp only [List.head?_cons, Option.some.injEq] at h
    subst h
    have h2 := List.head?_dropWhile_not isWhiteSpace x
    rw [← hr] at h2
    simpa using h2

theorem trim_getLast_not_whiteSpace (x : Str) (c : Char) (h : (trim x).getLast? = some c) :
    isWhiteSpace c = false := by
  have hne : trim x ≠ [] := by
    intro h0
    simp [h0] at h
  have h1 := List.rdropWhile_last_not isWhiteSpace (x.dropWhile isWhiteSpace) hne
  rw [List.getLast?_eq_getLast _ hne] at h
  simp only [Option.some.injEq] at h
  rw [← h]
  simpa [trim_eq_rdropWhile] using h1

theorem trim_trim (x : Str) : trim (trim x) = trim x := by
  have hd : (trim x).dropWhile isWhiteSpace = trim x := by
    cases hz : trim x with
    | nil => rfl
    | cons d z =>
      have := trim_head_not_whiteSpace x d (by simp [hz])
      simp [this]
  conv_lhs => rw [trim_eq_rdropWhile, hd, trim_eq_rdropWhile]
  rw [List.rdropWhile_idempotent, ← trim_eq_rdropWhile]

theorem trim_append_left (w x : Str) (hw : ∀ c ∈ w, isWhiteSpace c = true) :
    trim (w ++ x) = trim x := by
  have hd : (w ++ x).dropWhile isWhiteSpace = x.dropWhile isWhiteSpace := by
    induction w with
    | nil => rfl
    | cons c w ih =>
      have hc : isWhiteSpace c = true := hw c (List.mem_cons_self _ _)
      rw [List.cons_append, List.dropWhile_cons_of_pos hc]
      exact ih (fun d hd => hw d (List.mem_cons_of_mem _ hd))
  rw [trim_eq_rdropWhile, hd, ← trim_eq_rdropWhile]

theorem splitComma_ne_nil (x : Str) : splitComma x ≠ [] := by
  cases x with
  | nil => simp [splitComma]
  | cons c cs =>
    simp only [splitComma]
    split
    · simp
    · split <;> simp

theorem comma_not_mem_of_mem_splitComma (x seg : Str) (h : seg ∈ splitComma x) :
    ',' ∉ seg := by
  induction x generalizing seg with
  | nil =>
    simp only [splitComma, List.mem_singleton] at h
    simp [h]
  | cons c cs ih =>
    simp only [splitComma] at h
    split at h
    · rcases List.mem_cons.mp h with h | h
      · simp [h]
      · exact ih seg h
    · rename_i hc
      split at h
      · rename_i heq
        exact absurd heq (splitComma_ne_nil cs)
      · rename_i seg0 segs heq
        rcases List.mem_cons.mp h with h | h
        · have h0 : ',' ∉ seg0 := ih seg0 (by simp [heq])
          subst h
          intro hmem
          rcases List.mem_cons.mp hmem with h1 | h1
          · exact hc h1.symm
          · exact h0 h1
        · exact ih seg (by simp [heq, h])

theorem splitComma_of_no_comma (x : Str) (h : ',' ∉ x) : splitComma x = [x] := by
  induction x with
  | nil => rfl
  | cons c cs ih =>
    have hc : c ≠ ',' := fun hc => h (by simp [hc])
    have hcs : ',' ∉ cs := fun hm => h (List.mem_cons_of_mem _ hm)
    simp [splitComma, hc, ih hcs]

theorem splitComma_append_comma (x rest : Str) (h : ',' ∉ x) :
    splitComma (x ++ ',' :: rest) = x :: splitComma rest := by
  induction x with
  | nil => simp [splitComma]
  | cons c cs ih =>
    have hc : c ≠ ',' := fun hc => h (by simp [hc])
    have hcs : ',' ∉ cs := fun hm => h (List.mem_cons_of_mem _ hm)
    simp [splitComma, hc, ih hcs]

theorem firstOccurrences_of_nodup {α : Type} [DecidableEq α] (l : List α) (h : l.Nodup) :
    firstOccurrences l = l := by
  induction l with
  | nil => rfl
  | cons x xs ih =>
    rw [List.nodup_cons] at h
    simp only [firstOccurrences, ih h.2]
    congr 1
    rw [List.filter_eq_self]
    intro y hy
    have hyx : y ≠ x := fun e => h.1 (e ▸ hy)
    simpa using hyx

/-! ## Committing and removing tags -/

theorem addTag_of_blank (s : State) (h : trim s.tagInput = []) : addTag s = s := by
  simp [addTag, h]

theorem addTag_of_nonblank (s : State) (h : trim s.tagInput ≠ []) :
    addTag s =
      { s with
        currentNote :=
          { s.currentNote with
            tags := newSet (((splitComma s.tagInput).map trim).filter
              (fun t => !t.isEmpty)) } } := by
  have hb : (trim s.tagInput).isEmpty = false := by
    simpa [List.isEmpty_iff] using h
  simp [addTag, hb]

theorem filter_not_isEmpty (l : List Str) :
    l.filter (fun t => !t.isEmpty) = l.filter (fun t => decide (t ≠ [])) := by
  apply List.filter_congr
  intro t _
  cases t <;> simp

theorem cleanTag_of_mem_parsed (raw t : Str)
    (h : t ∈ newSet (((splitComma raw).map trim).filter (fun t => !t.isEmpty))) :
    CleanTag t := by
  rw [newSet_eq_firstOccurrences, mem_firstOccurrences, filter_not_isEmpty,
    List.mem_filter, List.mem_map] at h
  obtain ⟨⟨seg, hseg, rfl⟩, hne⟩ := h
  refine ⟨by simpa using hne, ?_, trim_trim seg⟩
  intro hc
  exact comma_not_mem_of_mem_splitComma raw seg hseg ((trim_sublist seg).subset hc)

theorem map_trim_splitComma_join (ts : List Str) (hts : ts ≠ [])
    (hclean : ∀ t ∈ ts, CleanTag t) (w : Str) (hw : ∀ c ∈ w, isWhiteSpace c = true)
    (hwc : ',' ∉ w) :
    (splitComma (w ++ join ", ".toList ts)).map trim = ts := by
  induction ts generalizing w with
  | nil => exact absurd rfl hts
  | cons x rest ih =>
    have hx : CleanTag x := hclean x (List.mem_cons_self _ _)
    have hwx : ',' ∉ w ++ x := by
      intro hm
      rcases List.mem_append.mp hm with h | h
      · exact hwc h
      · exact hx.2.1 h
    cases rest with
    | nil =>
      simp only [join]
      rw [splitComma_of_no_comma _ hwx]
      simp [trim_append_left w x hw, hx.2.2]
    | cons y rest =>
      have hj : w ++ join ", ".toList (x :: y :: rest) =
          (w ++ x) ++ ',' :: ([' '] ++ join ", ".toList (y :: rest)) := by
        simp [join]
      rw [hj, splitComma_append_comma _ _ hwx, List.map_cons,
        ih (by simp) (fun t ht => hclean t (List.mem_cons_of_mem _ ht)) [' ']
          (by decide) (by decide),
        trim_append_left w x hw, hx.2.2]

theorem parse_join_of_clean (ts : List Str) (hclean : ∀ t ∈ ts, CleanTag t)
    (hnd : ts.Nodup) :
    newSet (((splitComma (join ", ".toList ts)).map trim).filter (fun t => !t.isEmpty))
      = ts := by
  cases hts : ts with
  | nil => decide
  | cons x rest =>
    rw [← hts]
    have h := map_trim_splitComma_join ts (by simp [hts]) hclean [] (by simp) (by simp)
    rw [List.nil_append] at h
    rw [h, newSet_eq_firstOccurrences, filter_not_isEmpty]
    have hf : ts.filter (fun t => decide (t ≠ [])) = ts := by
      rw [List.filter_eq_self]
      intro t ht
      simpa using (hclean t ht).1
    rw [hf]
    exact firstOccurrences_of_nodup ts hnd

/-- C7: when the raw text is not blank, `addTag` sets the draft's tags to the first
occurrences, in order, of the non-empty trimmed comma-separated segments of the text,
whatever the previous tags were, and changes nothing else; the committed tags have no
duplicates, no empty string and no tag that starts or ends with white space. The text
`a, b, a, c` gives the tags a, b, c. When the raw text is blank, `addTag` returns the
state unchanged. -/
theorem addTag_spec (s : State) :
    (trim s.tagInput ≠ [] →
      (addTag s).currentNote.tags =
        firstOccurrences
          (((splitComma s.tagInput).map trim).filter (fun t => decide (t ≠ []))) ∧
      (addTag s).currentNote.id = s.currentNote.id ∧
      (addTag s).currentNote.title = s.currentNote.title ∧
      (addTag s).currentNote.content = s.currentNote.content ∧
      (addTag s).currentNote.createdAt = s.currentNote.createdAt ∧
      (addTag s).notes = s.notes ∧
      (addTag s).tagInput = s.tagInput ∧
      (addTag s).isEditing = s.isEditing ∧
      (addTag s).searchQuery = s.searchQuery ∧
      (addTag s).filterTag = s.filterTag ∧
      (addTag s).currentNote.tags.Nodup ∧
      ∀ t ∈ (addTag s).currentNote.tags,
        t ≠ [] ∧
        (∀ c, t.head? = some c → isWhiteSpace c = false) ∧
        (∀ c, t.getLast? = some c → isWhiteSpace c = false)) ∧
    (s.tagInput = "a, b, a, c".toList →
      (addTag s).currentNote.tags = ["a".toList, "b".toList, "c".toList]) ∧
    (trim s.tagInput = [] → addTag s = s) := by
  refine ⟨?_, ?_, addTag_of_blank s⟩
  · intro h
    rw [addTag_of_nonblank s h]
    refine ⟨?_, rfl, rfl, rfl, rfl, rfl, rfl, rfl, rfl, rfl, ?_, ?_⟩
    · simp only [newSet_eq_firstOccurrences, filter_not_isEmpty]
    · simp only [newSet_eq_firstOccurrences]
      exact nodup_firstOccurrences _
    · intro t ht
      have hc := cleanTag_of_mem_parsed s.tagInput t ht
      refine ⟨hc.1, ?_, ?_⟩
      · intro c hh
        rw [← hc.2.2] at hh
        exact trim_head_not_whiteSpace t c hh
      · intro c hl
        rw [← hc.2.2] at hl
        exact trim_getLast_not_whiteSpace t c hl
  · intro h
    have hnb : trim s.tagInput ≠ [] := by
      rw [h]
      decide
    rw [addTag_of_nonblank s hnb, h]
    show newSet (((splitComma "a, b, a, c".toList).map trim).filter (fun t => !t.isEmpty))
      = ["a".toList, "b".toList, "c".toList]
    decide

theorem addTag_spec_witness :
    trim tagInputState.tagInput ≠ [] ∧
    (addTag tagInputState).currentNote.tags = ["a".toList, "b".toList, "c".toList] ∧
    (addTag tagInputState).currentNote.tags.Nodup :=
  ⟨by decide, (addTag_spec tagInputState).2.1 rfl,
    ((addTag_spec tagInputState).1 (by decide)).2.2.2.2.2.2.2.2.2.2.1⟩

/-- C10: for a draft whose tags are those `addTag` committed from a non-blank raw text,
`removeTag(t)` sets the tags to the previous tags without `t` (the rest in order) and
the text buffer to those remaining tags joined with a comma and a space; `addTag` on
the resulting state leaves the tags equal to the remaining tags, also when no tag
remains, where the buffer is empty and `addTag` changes nothing. -/
theorem removeTag_consistent (s0 s : State) (t : Str)
    (hraw : trim s0.tagInput ≠ [])
    (hprod : s.currentNote.tags = (addTag s0).currentNote.tags) :
    (removeTag s t).currentNote.tags =
      s.currentNote.tags.filter (fun x => decide (x ≠ t)) ∧
    t ∉ (removeTag s t).currentNote.tags ∧
    (removeTag s t).tagInput = join ", ".toList (removeTag s t).currentNote.tags ∧
    (addTag (removeTag s t)).currentNote.tags = (removeTag s t).currentNote.tags ∧
    ((removeTag s t).currentNote.tags = [] →
      (removeTag s t).tagInput = [] ∧ addTag (removeTag s t) = removeTag s t) := by
  have hfilter : s.currentNote.tags.filter (fun x => x != t) =
      s.currentNote.tags.filter (fun x => decide (x ≠ t)) := by
    apply List.filter_congr
    intro x _
    by_cases hx : x = t <;> simp [hx]
  have htags : (removeTag s t).currentNote.tags =
      s.currentNote.tags.filter (fun x => decide (x ≠ t)) := by
    simp only [removeTag, hfilter]
  have hbuf : (removeTag s t).tagInput = join ", ".toList (removeTag s t).currentNote.tags := by
    simp only [removeTag]
  have hclean : ∀ x ∈ (removeTag s t).currentNote.tags, CleanTag x := by
    intro x hx
    rw [htags] at hx
    have hx2 := (List.mem_filter.mp hx).1
    rw [hprod, addTag_of_nonblank s0 hraw] at hx2
    exact cleanTag_of_mem_parsed s0.tagInput x hx2
  have hnd : (removeTag s t).currentNote.tags.Nodup := by
    rw [htags, hprod, addTag_of_nonblank s0 hraw]
    simp only [newSet_eq_firstOccurrences]
    exact (nodup_firstOccurrences _).filter _
  refine ⟨htags, ?_, hbuf, ?_, ?_⟩
  · rw [htags]
    simp [List.mem_filter]
  · by_cases hb : trim (removeTag s t).tagInput = []
    · rw [addTag_of_blank _ hb]
    · rw [addTag_of_nonblank _ hb]
      simp only
      rw [hbuf]
      exact parse_join_of_clean _ hclean hnd
  · intro hnil
    have hb0 : (removeTag s t).tagInput = [] := by
      rw [hbuf, hnil]
      rfl
    refine ⟨hb0, addTag_of_blank _ ?_⟩
    rw [hb0]
    decide

theorem removeTag_consistent_witness :
    trim tagInputState.tagInput ≠ [] ∧
    (removeTag (addTag tagInputState) "b".toList).currentNote.tags =
      ["a".toList, "c".toList] ∧
    (removeTag (addTag tagInputState) "b".toList).tagInput = "a, c".toList ∧
    (addTag (removeTag (addTag tagInputState) "b".toList)).currentNote.tags =
      ["a".toList, "c".toList] :=
  ⟨by decide, by decide, by decide,
    (removeTag_consistent tagInputState (addTag tagInputState) "b".toList (by decide)
      rfl).2.2.2.1.trans (by decide)⟩

end NotesApp
